import Mathlib

/-!
Verification development for the record-reconciliation core of a Terraform
provider for the Technitium DNS server.

Embedding conventions:
* Go strings are embedded as `List Char`; `S` converts a Lean string literal
  to that representation.  Go's `strings.Split(s, ":")`, `strings.HasSuffix`,
  `strings.Contains`, `strings.Trim(s, "\"")`, `strconv.ParseInt(s, 10, 64)`,
  `strconv.FormatInt`/`fmt.Sprintf("%d", ·)` are embedded by `splitOnColon`,
  `hasSuffix`, `containsSub`, `trimQuotes`, `parseInt64`, `intToChars`.
* Terraform's nullable attribute values (`types.String`, `types.Int64`, ...)
  are embedded as `Option _` where the code branches on
  `IsNull() || IsUnknown()`, and as the plain `ValueString()` result where the
  code only ever reads the value (Go returns `""` for a null string value).
* The session client's `doRequest` retry loop (internal/client/client.go,
  lines 143-186) is embedded as a fuel-indexed recursion `goLoop`; the
  environment supplies the outcome of the i-th HTTP attempt and of the j-th
  login call as functions `Nat → Option (List Char)` (`none` = success,
  `some msg` = the error message the Go call returned).  The emitted event
  trace records backoff waits, HTTP attempts and login calls in order.
  Context cancellation is modelled as never firing (the `ctx.Done()` arm of
  the backoff select is not taken).
-/

/-- Convert a Lean string literal to the `List Char` embedding of Go strings. -/
def S (s : String) : List Char := s.data

/-- Embedding of Go `strings.HasSuffix s suffix`. -/
def hasSuffix (s suffix : List Char) : Bool := decide (suffix <:+ s)

/-- Embedding of Go `strings.Contains s sub`. -/
def containsSub (s sub : List Char) : Bool := decide (sub <:+: s)

/-- Embedding of Go `strings.Trim(s, "\"")`: remove all leading and trailing
double-quote characters. -/
def trimQuotes (s : List Char) : List Char :=
  ((s.dropWhile (· = '"')).reverse.dropWhile (· = '"')).reverse

/-- Helper for `splitOnColon`; `acc` holds the current segment reversed. -/
def splitOnColonAux : List Char → List Char → List (List Char)
  | [], acc => [acc.reverse]
  | c :: cs, acc =>
    if c = ':' then acc.reverse :: splitOnColonAux cs []
    else splitOnColonAux cs (c :: acc)

/-- Embedding of Go `strings.Split(s, ":")`. -/
def splitOnColon (s : List Char) : List (List Char) := splitOnColonAux s []

/-- FQDN normalization as written inline in `Create`, `Read`, `Update` and
`Delete` of internal/provider/dns_record_resource.go (e.g. lines 286-292):
if the name is `"@"` or equals the zone it is left alone; otherwise the zone
is appended unless the name ends in `"."`, `"." ++ zone` or `zone`. -/
def normalizeName (name zone : List Char) : List Char :=
  if name = S "@" ∨ name = zone then name
  else if hasSuffix name (S ".") = false ∧ hasSuffix name ('.' :: zone) = false ∧
      hasSuffix name zone = false then
    name ++ '.' :: zone
  else name

theorem hasSuffix_append_self (n z : List Char) :
    hasSuffix (n ++ '.' :: z) z = true := by
  have h : z <:+ (n ++ ['.']) ++ z := List.suffix_append (n ++ ['.']) z
  simp only [List.append_assoc, List.singleton_append] at h
  simpa [hasSuffix] using h

/-- C7: FQDN normalization is idempotent. -/
theorem normalizeName_idempotent (n z : List Char) :
    normalizeName (normalizeName n z) z = normalizeName n z := by
  unfold normalizeName
  by_cases h1 : n = S "@" ∨ n = z
  · simp [h1]
  · simp only [h1, if_false]
    by_cases h2 : hasSuffix n (S ".") = false ∧ hasSuffix n ('.' :: z) = false ∧
        hasSuffix n z = false
    · simp only [h2, if_true]
      by_cases h3 : n ++ '.' :: z = S "@" ∨ n ++ '.' :: z = z
      · simp [h3]
      · simp [h3, hasSuffix_append_self]
    · simp [h2, h1]

/-- Envelope of every Technitium API response (internal/client/client.go,
`APIResponse`): a `status` string plus the two error-message fields.  The
payload bytes are irrelevant to the claims and are not modelled. -/
structure APIResponseModel where
  status : List Char
  errorMessage : List Char
  errorField : List Char
  deriving DecidableEq

/-- Outcome of one `makeRequest` call after the envelope has been decoded:
either success, or the exact error message `makeRequest` returns. -/
inductive EnvelopeOutcome where
  | ok
  | fail (msg : List Char)
  deriving DecidableEq

/-- Embedding of the `switch apiResp.Status` dispatch at the end of
`makeRequest` (internal/client/client.go, lines 327-349). -/
def makeRequestStatusDispatch (resp : APIResponseModel) : EnvelopeOutcome :=
  if resp.status = S "ok" then .ok
  else if resp.status = S "error" then
    let m₁ := if resp.errorMessage = [] then resp.errorField else resp.errorMessage
    let m₂ := if m₁ = [] then S "unknown error" else m₁
    .fail (S "API error: " ++ m₂)
  else if resp.status = S "invalid-token" then
    .fail (S "invalid-token: session expired or invalid token")
  else .fail (S "unexpected API status: " ++ resp.status)

/-- C10: an `"error"` envelope with both `errorMessage` and `error` empty is
surfaced as a DomainError carrying the non-empty fallback text
`"unknown error"`. -/
theorem dispatch_error_empty_fallback (resp : APIResponseModel)
    (hs : resp.status = S "error") (he : resp.errorMessage = [])
    (hf : resp.errorField = []) :
    makeRequestStatusDispatch resp = .fail (S "API error: unknown error") ∧
      S "unknown error" ≠ [] := by
  constructor
  · simp [makeRequestStatusDispatch, hs, he, hf]
    decide
  · decide

/-- Witness for C10 at a concrete envelope. -/
theorem dispatch_error_empty_fallback_witness :
    let resp : APIResponseModel := ⟨S "error", [], []⟩
    makeRequestStatusDispatch resp = .fail (S "API error: unknown error") ∧
      S "unknown error" ≠ [] :=
  dispatch_error_empty_fallback ⟨S "error", [], []⟩ rfl rfl rfl

/-- Decimal digit `d` (`d < 10`) rendered as a character, as Go's
`strconv.FormatInt` does. -/
def digitChar (d : Nat) : Char := Char.ofNat (48 + d)

/-- Embedding of Go `strconv.FormatInt(n, 10)` / `fmt.Sprintf("%d", n)` for a
non-negative value. -/
def natToChars (n : Nat) : List Char :=
  if n = 0 then ['0'] else ((Nat.digits 10 n).map digitChar).reverse

/-- Embedding of Go `strconv.FormatInt(p, 10)` / `fmt.Sprintf("%d", p)`. -/
def intToChars (p : Int) : List Char :=
  if p < 0 then '-' :: natToChars p.natAbs else natToChars p.natAbs

/-- Embedding of Go `strconv.FormatBool`. -/
def boolToChars (b : Bool) : List Char := if b then S "true" else S "false"

/-- Numeric value of a decimal digit character, `none` for any other
character. -/
def digitVal (c : Char) : Option Nat :=
  if 48 ≤ c.toNat ∧ c.toNat ≤ 57 then some (c.toNat - 48) else none

/-- Accumulate the decimal value of a run of characters, failing on the first
non-digit, as Go's `strconv.ParseUint` core loop does. -/
def parseDigits : List Char → Nat → Option Nat
  | [], acc => some acc
  | c :: cs, acc =>
    match digitVal c with
    | some d => parseDigits cs (acc * 10 + d)
    | none => none

/-- Sign-stripped half of `parseInt64`: parse the digit run and apply Go's
int64 range check (`strconv.ParseInt(·, 10, 64)` fails with `ErrRange`
outside `[-2^63, 2^63-1]`, and any error makes `err == nil` false). -/
def parseMagnitude64 (digitsPart : List Char) (neg : Bool) : Option Int :=
  if digitsPart = [] then none
  else
    match parseDigits digitsPart 0 with
    | none => none
    | some n =>
      if neg then (if n ≤ 2 ^ 63 then some (-(n : Int)) else none)
      else (if n ≤ 2 ^ 63 - 1 then some ((n : Int)) else none)

/-- Embedding of Go `strconv.ParseInt(s, 10, 64)`: optional sign, at least one
digit, no other characters, int64 range check; `none` stands for any
`err != nil` result. -/
def parseInt64 (s : List Char) : Option Int :=
  match s with
  | [] => none
  | c :: rest =>
    if c = '-' then parseMagnitude64 rest true
    else if c = '+' then parseMagnitude64 rest false
    else parseMagnitude64 s false

theorem digitVal_digitChar {d : Nat} (hd : d < 10) :
    digitVal (digitChar d) = some d := by
  interval_cases d <;> decide

theorem digitChar_ne_minus {d : Nat} (hd : d < 10) : digitChar d ≠ '-' := by
  interval_cases d <;> decide

theorem digitChar_ne_plus {d : Nat} (hd : d < 10) : digitChar d ≠ '+' := by
  interval_cases d <;> decide

theorem digitChar_ne_colon {d : Nat} (hd : d < 10) : digitChar d ≠ ':' := by
  interval_cases d <;> decide

theorem parseDigits_map_digitChar (M : List Nat) (acc : Nat)
    (h : ∀ d ∈ M, d < 10) :
    parseDigits (M.map digitChar) acc =
      some (M.foldl (fun a d => a * 10 + d) acc) := by
  induction M generalizing acc with
  | nil => rfl
  | cons d T ih =>
    have hd : d < 10 := h d (List.mem_cons_self d T)
    have hT : ∀ x ∈ T, x < 10 := fun x hx => h x (List.mem_cons_of_mem d hx)
    simp only [List.map_cons, parseDigits, digitVal_digitChar hd, List.foldl_cons]
    exact ih (acc * 10 + d) hT

theorem foldl_reverse_ofDigits (L : List Nat) (acc : Nat) :
    (L.reverse).foldl (fun a d => a * 10 + d) acc =
      acc * 10 ^ L.length + Nat.ofDigits 10 L := by
  induction L generalizing acc with
  | nil => simp [Nat.ofDigits_nil]
  | cons d T ih =>
    simp only [List.reverse_cons, List.foldl_append, List.foldl_cons,
      List.foldl_nil, ih, Nat.ofDigits_cons, List.length_cons]
    ring

theorem parseDigits_natToChars (n : Nat) :
    parseDigits (natToChars n) 0 = some n := by
  by_cases hn : n = 0
  · subst hn; decide
  · have hlt : ∀ d ∈ (Nat.digits 10 n).reverse, d < 10 := by
      intro d hd
      exact Nat.digits_lt_base (by norm_num) (List.mem_reverse.mp hd)
    have : natToChars n = ((Nat.digits 10 n).reverse).map digitChar := by
      simp [natToChars, hn, List.map_reverse]
    rw [this, parseDigits_map_digitChar _ 0 hlt, foldl_reverse_ofDigits]
    simp [Nat.ofDigits_digits]

theorem mem_natToChars {c : Char} {n : Nat} (hc : c ∈ natToChars n) :
    ∃ d, d < 10 ∧ c = digitChar d := by
  by_cases hn : n = 0
  · subst hn
    simp only [natToChars, if_pos rfl, List.mem_singleton] at hc
    exact ⟨0, by norm_num, by simpa [digitChar] using hc⟩
  · simp only [natToChars, if_neg hn, List.mem_reverse, List.mem_map] at hc
    obtain ⟨d, hd, rfl⟩ := hc
    exact ⟨d, Nat.digits_lt_base (by norm_num) hd, rfl⟩

theorem natToChars_ne_nil (n : Nat) : natToChars n ≠ [] := by
  by_cases hn : n = 0
  · subst hn; decide
  · simp only [natToChars, if_neg hn]
    intro h
    have := List.reverse_eq_nil_iff.mp h
    simp only [List.map_eq_nil_iff] at this
    exact (Nat.digits_ne_nil_iff_ne_zero.mpr hn) this

theorem parseMagnitude64_natToChars (n : Nat) (neg : Bool)
    (h : if neg then n ≤ 2 ^ 63 else n ≤ 2 ^ 63 - 1) :
    parseMagnitude64 (natToChars n) neg =
      some (if neg then -(n : Int) else (n : Int)) := by
  unfold parseMagnitude64
  rw [if_neg (natToChars_ne_nil n), parseDigits_natToChars]
  cases neg with
  | true =>
    simp only [if_true] at h ⊢
    rw [if_pos h]
  | false =>
    simp only [Bool.false_eq_true, if_false] at h ⊢
    rw [if_pos h]

theorem head_natToChars_is_digit (n : Nat) :
    ∃ c cs, natToChars n = c :: cs ∧ ∃ d, d < 10 ∧ c = digitChar d := by
  rcases hn : natToChars n with _ | ⟨c, cs⟩
  · exact absurd hn (natToChars_ne_nil n)
  · refine ⟨c, cs, rfl, ?_⟩
    exact mem_natToChars (by rw [hn]; exact List.mem_cons_self c cs)

/-- Round-trip of the integer codec inside the int64 range: what
`FormatInt` prints, `ParseInt` reads back. -/
theorem parseInt64_intToChars (p : Int) (hlo : -(2 ^ 63) ≤ p)
    (hhi : p < 2 ^ 63) : parseInt64 (intToChars p) = some p := by
  by_cases hneg : p < 0
  · have habs : (p.natAbs : Int) = -p := Int.ofNat_natAbs_of_nonpos (le_of_lt hneg)
    have hb : p.natAbs ≤ 2 ^ 63 := by
      have : (p.natAbs : Int) ≤ 2 ^ 63 := by rw [habs]; omega
      exact_mod_cast this
    have h1 : intToChars p = '-' :: natToChars p.natAbs := by
      simp [intToChars, hneg]
    have h2 : parseInt64 ('-' :: natToChars p.natAbs) =
        parseMagnitude64 (natToChars p.natAbs) true := by
      simp [parseInt64]
    rw [h1, h2, parseMagnitude64_natToChars _ true (by simpa using hb)]
    simp only [if_true, habs, Option.some.injEq]
    ring
  · have hnn : 0 ≤ p := not_lt.mp hneg
    have habs : (p.natAbs : Int) = p := Int.natAbs_of_nonneg hnn
    have hb : p.natAbs ≤ 2 ^ 63 - 1 := by
      have : (p.natAbs : Int) ≤ 2 ^ 63 - 1 := by rw [habs]; omega
      omega
    obtain ⟨c, cs, hcons, d, hd, rfl⟩ := head_natToChars_is_digit p.natAbs
    have h1 : intToChars p = natToChars p.natAbs := by
      simp [intToChars, hneg]
    have h2 : parseInt64 (digitChar d :: cs) =
        parseMagnitude64 (digitChar d :: cs) false := by
      simp [parseInt64, digitChar_ne_minus hd, digitChar_ne_plus hd]
    rw [h1, hcons, h2, ← hcons,
      parseMagnitude64_natToChars _ false (by simpa using hb)]
    simp [habs]

theorem colon_not_mem_natToChars (n : Nat) : ':' ∉ natToChars n := by
  intro hc
  obtain ⟨d, hd, h⟩ := mem_natToChars hc
  exact digitChar_ne_colon hd h.symm

theorem colon_not_mem_intToChars (p : Int) : ':' ∉ intToChars p := by
  unfold intToChars
  by_cases hneg : p < 0
  · simp only [if_pos hneg, List.mem_cons]
    rintro (h | h)
    · exact absurd h.symm (by decide)
    · exact colon_not_mem_natToChars _ h
  · simp only [if_neg hneg]
    exact colon_not_mem_natToChars _

theorem splitOnColonAux_no_colon (s acc : List Char) (h : ':' ∉ s) :
    splitOnColonAux s acc = [acc.reverse ++ s] := by
  induction s generalizing acc with
  | nil => simp [splitOnColonAux]
  | cons c cs ih =>
    have hc : c ≠ ':' := fun hcc => h (hcc ▸ List.mem_cons_self c cs)
    have hcs : ':' ∉ cs := fun hm => h (List.mem_cons_of_mem c hm)
    simp [splitOnColonAux, hc, ih _ hcs]

theorem splitOnColonAux_append (a b acc : List Char) (h : ':' ∉ a) :
    splitOnColonAux (a ++ ':' :: b) acc =
      (acc.reverse ++ a) :: splitOnColonAux b [] := by
  induction a generalizing acc with
  | nil => simp [splitOnColonAux]
  | cons c cs ih =>
    have hc : c ≠ ':' := fun hcc => h (hcc ▸ List.mem_cons_self c cs)
    have hcs : ':' ∉ cs := fun hm => h (List.mem_cons_of_mem c hm)
    simp [splitOnColonAux, hc, ih _ hcs]

theorem splitOnColon_no_colon (s : List Char) (h : ':' ∉ s) :
    splitOnColon s = [s] := by
  simpa using splitOnColonAux_no_colon s [] h

theorem splitOnColon_append (a b : List Char) (h : ':' ∉ a) :
    splitOnColon (a ++ ':' :: b) = a :: splitOnColon b := by
  simpa [splitOnColon] using splitOnColonAux_append a b [] h

/-- Composite record identity built by `Create`
(internal/provider/dns_record_resource.go, lines 318-352): start from
`zone:name:type`, append `:priority` whenever the plan's priority attribute is
set (any record type), then append `:data` unless the type is TXT or FWD or
the data string is empty. -/
def encodeRecordID (zone name typ : List Char) (priority : Option Int)
    (dataV : List Char) : List Char :=
  let base := zone ++ ':' :: name ++ ':' :: typ
  let withPriority :=
    match priority with
    | some p => base ++ ':' :: intToChars p
    | none => base
  if typ = S "TXT" then withPriority
  else if typ = S "FWD" then withPriority
  else if dataV ≠ [] then withPriority ++ ':' :: dataV
  else withPriority

/-- Fields recovered from a composite identity string by `Read`
(internal/provider/dns_record_resource.go, lines 466-523).  `priority`
defaults to `0` and `dataV` to `""` when the corresponding segment is
absent, exactly as the Go local variables do. -/
structure DecodedRecordID where
  zone : List Char
  name : List Char
  typ : List Char
  priority : Int
  dataV : List Char
  deriving DecidableEq

/-- Identity decoding as performed by `Read` (and, with the same structure, by
`ImportState`, lines 952-982): fewer than 3 colon-separated segments is the
only failure; a 4th segment is tried as an int64 first and used as data only
when that parse fails; a 5th segment always lands in data. -/
def decodeRecordID (s : List Char) : Option DecodedRecordID :=
  let parts := splitOnColon s
  if parts.length < 3 then none
  else
    let zone := parts.getD 0 []
    let name := parts.getD 1 []
    let typ := parts.getD 2 []
    let pd : Int × List Char :=
      if 3 < parts.length then
        match parseInt64 (parts.getD 3 []) with
        | some p => (p, [])
        | none => (0, parts.getD 3 [])
      else (0, [])
    let dataV := if 4 < parts.length then parts.getD 4 [] else pd.2
    some ⟨zone, name, typ, pd.1, dataV⟩

/-- Segment shape of an encoded identity whose constituent fields are
colon-free. -/
theorem splitOnColon_encodeRecordID (zone name typ dataV : List Char)
    (prio : Option Int) (hz : ':' ∉ zone) (hn : ':' ∉ name) (ht : ':' ∉ typ)
    (hd : ':' ∉ dataV) :
    splitOnColon (encodeRecordID zone name typ prio dataV) =
      zone :: name :: typ ::
        ((match prio with | some p => [intToChars p] | none => []) ++
          (if typ = S "TXT" ∨ typ = S "FWD" ∨ dataV = [] then [] else [dataV])) := by
  by_cases hskip : typ = S "TXT" ∨ typ = S "FWD" ∨ dataV = []
  · have henc : encodeRecordID zone name typ prio dataV =
        match prio with
        | some p => zone ++ ':' :: (name ++ ':' :: (typ ++ ':' :: intToChars p))
        | none => zone ++ ':' :: (name ++ ':' :: typ) := by
      rcases hskip with h | h | h <;> rcases prio with _ | p <;>
        simp [encodeRecordID, h, List.append_assoc]
    rcases prio with _ | p
    · rw [henc, splitOnColon_append _ _ hz, splitOnColon_append _ _ hn,
        splitOnColon_no_colon _ ht]
      simp [hskip]
    · rw [henc, splitOnColon_append _ _ hz, splitOnColon_append _ _ hn,
        splitOnColon_append _ _ ht, splitOnColon_no_colon _ (colon_not_mem_intToChars p)]
      simp [hskip]
  · push_neg at hskip
    obtain ⟨hT, hF, hE⟩ := hskip
    have henc : encodeRecordID zone name typ prio dataV =
        match prio with
        | some p =>
            zone ++ ':' :: (name ++ ':' :: (typ ++ ':' :: (intToChars p ++ ':' :: dataV)))
        | none => zone ++ ':' :: (name ++ ':' :: (typ ++ ':' :: dataV)) := by
      rcases prio with _ | p <;> simp [encodeRecordID, hT, hF, hE, List.append_assoc]
    rcases prio with _ | p
    · rw [henc, splitOnColon_append _ _ hz, splitOnColon_append _ _ hn,
        splitOnColon_append _ _ ht, splitOnColon_no_colon _ hd]
      simp [hT, hF, hE]
    · rw [henc, splitOnColon_append _ _ hz, splitOnColon_append _ _ hn,
        splitOnColon_append _ _ ht, splitOnColon_append _ _ (colon_not_mem_intToChars p),
        splitOnColon_no_colon _ hd]
      simp [hT, hF, hE]

/-- C4 (amended): for records whose zone, name, type and data contain no
colon, whose supplied priority fits in int64, and whose data does not itself
parse as an int64 when no priority was supplied, decoding the encoded identity
recovers zone, name, type, the supplied priority, and — except for TXT and
FWD, whose data is deliberately omitted from the identity — the data. -/
theorem decodeRecordID_encodeRecordID (zone name typ dataV : List Char)
    (prio : Option Int) (hz : ':' ∉ zone) (hn : ':' ∉ name) (ht : ':' ∉ typ)
    (hd : ':' ∉ dataV)
    (hp : ∀ p, prio = some p → -(2 ^ 63) ≤ p ∧ p < 2 ^ 63)
    (hnum : prio = none → typ ≠ S "TXT" → typ ≠ S "FWD" → dataV ≠ [] →
      parseInt64 dataV = none) :
    ∃ d, decodeRecordID (encodeRecordID zone name typ prio dataV) = some d ∧
      d.zone = zone ∧ d.name = name ∧ d.typ = typ ∧
      (∀ p, prio = some p → d.priority = p) ∧
      (typ ≠ S "TXT" → typ ≠ S "FWD" → d.dataV = dataV) := by
  have hsplit := splitOnColon_encodeRecordID zone name typ dataV prio hz hn ht hd
  by_cases hskip : typ = S "TXT" ∨ typ = S "FWD" ∨ dataV = []
  · rcases prio with _ | p
    · refine ⟨⟨zone, name, typ, 0, []⟩, ?_, rfl, rfl, rfl, ?_, ?_⟩
      · simp [decodeRecordID, hsplit, hskip]
      · intro p h; cases h
      · intro hT hF
        rcases hskip with h | h | h
        · exact absurd h hT
        · exact absurd h hF
        · exact h.symm
    · obtain ⟨hplo, hphi⟩ := hp p rfl
      refine ⟨⟨zone, name, typ, p, []⟩, ?_, rfl, rfl, rfl, ?_, ?_⟩
      · simp [decodeRecordID, hsplit, hskip, parseInt64_intToChars p hplo hphi]
      · intro q h; cases h; rfl
      · intro hT hF
        rcases hskip with h | h | h
        · exact absurd h hT
        · exact absurd h hF
        · exact h.symm
  · push_neg at hskip
    obtain ⟨hT, hF, hE⟩ := hskip
    have hcond : ¬(typ = S "TXT" ∨ typ = S "FWD" ∨ dataV = []) := by
      push_neg; exact ⟨hT, hF, hE⟩
    rcases prio with _ | p
    · refine ⟨⟨zone, name, typ, 0, dataV⟩, ?_, rfl, rfl, rfl, ?_, ?_⟩
      · simp [decodeRecordID, hsplit, hcond, hnum rfl hT hF hE]
      · intro p h; cases h
      · intro _ _; rfl
    · obtain ⟨hplo, hphi⟩ := hp p rfl
      refine ⟨⟨zone, name, typ, p, dataV⟩, ?_, rfl, rfl, rfl, ?_, ?_⟩
      · simp [decodeRecordID, hsplit, hcond, parseInt64_intToChars p hplo hphi]
      · intro q h; cases h; rfl
      · intro _ _; rfl

/-- Counterexample to C4 as stated: the AAAA record
`{zone = example.com, name = www, data = 2001:db8::1}` is a valid record
(`validateRecord` requires AAAA data to contain a colon), yet decoding its
encoded identity yields priority `2001` and data `"db8"`, so the data field —
which the codec is supposed to preserve for non-TXT/FWD types — is destroyed. -/
theorem decode_encode_aaaa_counterexample :
    encodeRecordID (S "example.com") (S "www") (S "AAAA") none (S "2001:db8::1") =
      S "example.com:www:AAAA:2001:db8::1" ∧
    decodeRecordID (S "example.com:www:AAAA:2001:db8::1") =
      some ⟨S "example.com", S "www", S "AAAA", 2001, S "db8"⟩ ∧
    S "db8" ≠ S "2001:db8::1" := by
  refine ⟨by decide, ?_, by decide⟩
  decide

/-- Witness for the amended C4 at a concrete A record. -/
theorem decodeRecordID_encodeRecordID_witness :
    (':' ∉ S "example.com" ∧ ':' ∉ S "www" ∧ ':' ∉ S "A" ∧
      ':' ∉ S "192.168.1.100" ∧ parseInt64 (S "192.168.1.100") = none) ∧
    ∃ d, decodeRecordID
        (encodeRecordID (S "example.com") (S "www") (S "A") none
          (S "192.168.1.100")) = some d ∧
      d.zone = S "example.com" ∧ d.name = S "www" ∧ d.typ = S "A" ∧
      (∀ p, (none : Option Int) = some p → d.priority = p) ∧
      (S "A" ≠ S "TXT" → S "A" ≠ S "FWD" → d.dataV = S "192.168.1.100") :=
  ⟨⟨by decide, by decide, by decide, by decide, by decide⟩,
    decodeRecordID_encodeRecordID (S "example.com") (S "www") (S "A")
      (S "192.168.1.100") none (by decide) (by decide) (by decide) (by decide)
      (fun p h => by cases h) (fun _ _ _ _ => by decide)⟩

/-- C5 (amended): the priority segment is included in the encoded identity
exactly when a priority value was supplied, for every record type — `Create`
tests only whether the plan's priority attribute is set, never the record
type. -/
theorem encode_priority_segment (zone name typ dataV : List Char)
    (hz : ':' ∉ zone) (hn : ':' ∉ name) (ht : ':' ∉ typ) (hd : ':' ∉ dataV) :
    (∀ p : Int,
      splitOnColon (encodeRecordID zone name typ (some p) dataV) =
        zone :: name :: typ :: intToChars p ::
          (if typ = S "TXT" ∨ typ = S "FWD" ∨ dataV = [] then [] else [dataV])) ∧
    splitOnColon (encodeRecordID zone name typ none dataV) =
      zone :: name :: typ ::
        (if typ = S "TXT" ∨ typ = S "FWD" ∨ dataV = [] then [] else [dataV]) := by
  constructor
  · intro p
    simpa using splitOnColon_encodeRecordID zone name typ dataV (some p) hz hn ht hd
  · simpa using splitOnColon_encodeRecordID zone name typ dataV none hz hn ht hd

theorem digits_ten_five : Nat.digits 10 5 = [5] := by
  rw [Nat.digits_def' (by norm_num : (1 : ℕ) < 10) (by norm_num : 0 < 5)]
  norm_num

theorem digits_ten_one : Nat.digits 10 1 = [1] := by
  rw [Nat.digits_def' (by norm_num : (1 : ℕ) < 10) (by norm_num : 0 < 1)]
  norm_num

theorem digits_ten_ten : Nat.digits 10 10 = [0, 1] := by
  rw [Nat.digits_def' (by norm_num : (1 : ℕ) < 10) (by norm_num : 0 < 10)]
  norm_num [digits_ten_one]

theorem intToChars_five : intToChars 5 = S "5" := by
  simp [intToChars, natToChars, digits_ten_five]
  decide

theorem intToChars_one : intToChars 1 = S "1" := by
  simp [intToChars, natToChars, digits_ten_one]
  decide

theorem intToChars_ten : intToChars 10 = S "10" := by
  simp [intToChars, natToChars, digits_ten_ten]
  decide

/-- Counterexample to C5 as stated: an A record (a type that defines no
priority) with the optional priority attribute set to 5 still gets a priority
segment in its identity; the claim requires `example.com:www:A:192.168.1.100`. -/
theorem encode_priority_nonmx_counterexample :
    encodeRecordID (S "example.com") (S "www") (S "A") (some 5)
        (S "192.168.1.100") = S "example.com:www:A:5:192.168.1.100" ∧
    (splitOnColon (S "example.com:www:A:5:192.168.1.100")).getD 3 [] = S "5" ∧
    encodeRecordID (S "example.com") (S "www") (S "A") (some 5)
        (S "192.168.1.100") ≠ S "example.com:www:A:192.168.1.100" := by
  refine ⟨?_, by decide, ?_⟩
  · simp only [encodeRecordID, intToChars_five]
    decide
  · simp only [encodeRecordID, intToChars_five]
    decide

/-- Witness for the amended C5 at a concrete CNAME record. -/
theorem encode_priority_segment_witness :
    (':' ∉ S "example.com" ∧ ':' ∉ S "alias" ∧ ':' ∉ S "CNAME" ∧
      ':' ∉ S "target.example.com") ∧
    ((∀ p : Int,
      splitOnColon (encodeRecordID (S "example.com") (S "alias") (S "CNAME")
          (some p) (S "target.example.com")) =
        S "example.com" :: S "alias" :: S "CNAME" :: intToChars p ::
          (if S "CNAME" = S "TXT" ∨ S "CNAME" = S "FWD" ∨
              S "target.example.com" = ([] : List Char) then []
            else [S "target.example.com"])) ∧
    splitOnColon (encodeRecordID (S "example.com") (S "alias") (S "CNAME")
        none (S "target.example.com")) =
      S "example.com" :: S "alias" :: S "CNAME" ::
        (if S "CNAME" = S "TXT" ∨ S "CNAME" = S "FWD" ∨
            S "target.example.com" = ([] : List Char) then []
          else [S "target.example.com"])) :=
  ⟨⟨by decide, by decide, by decide, by decide⟩,
    encode_priority_segment (S "example.com") (S "alias") (S "CNAME")
      (S "target.example.com") (by decide) (by decide) (by decide) (by decide)⟩

/-- C6: decoding fails exactly on fewer than 3 colon-delimited segments (the
codec's only failure case); otherwise it succeeds, the first three segments
become zone, name and type, a 4th segment becomes the priority when it parses
as an int64 and the data field otherwise, and a 5th segment becomes the data
field. -/
theorem decodeRecordID_segments (s : List Char) :
    (decodeRecordID s = none ↔ (splitOnColon s).length < 3) ∧
    (3 ≤ (splitOnColon s).length →
      ∃ d, decodeRecordID s = some d ∧
        d.zone = (splitOnColon s).getD 0 [] ∧
        d.name = (splitOnColon s).getD 1 [] ∧
        d.typ = (splitOnColon s).getD 2 [] ∧
        (∀ p, parseInt64 ((splitOnColon s).getD 3 []) = some p →
          3 < (splitOnColon s).length → d.priority = p) ∧
        (parseInt64 ((splitOnColon s).getD 3 []) = none →
          3 < (splitOnColon s).length → (splitOnColon s).length ≤ 4 →
          d.dataV = (splitOnColon s).getD 3 []) ∧
        (4 < (splitOnColon s).length →
          d.dataV = (splitOnColon s).getD 4 [])) := by
  constructor
  · constructor
    · intro h
      by_contra hlen
      simp [decodeRecordID, hlen] at h
    · intro hlen
      simp [decodeRecordID, hlen]
  · intro hlen
    have hnlt : ¬ (splitOnColon s).length < 3 := by omega
    refine ⟨⟨(splitOnColon s).getD 0 [], (splitOnColon s).getD 1 [],
        (splitOnColon s).getD 2 [],
        (if 3 < (splitOnColon s).length then
            match parseInt64 ((splitOnColon s).getD 3 []) with
            | some p => ((p, ([] : List Char)) : Int × List Char)
            | none => (((0 : Int), (splitOnColon s).getD 3 []) : Int × List Char)
          else (((0 : Int), ([] : List Char)) : Int × List Char)).1,
        if 4 < (splitOnColon s).length then (splitOnColon s).getD 4 []
        else
          (if 3 < (splitOnColon s).length then
              match parseInt64 ((splitOnColon s).getD 3 []) with
              | some p => ((p, ([] : List Char)) : Int × List Char)
              | none => (((0 : Int), (splitOnColon s).getD 3 []) : Int × List Char)
            else (((0 : Int), ([] : List Char)) : Int × List Char)).2⟩,
      ?_, rfl, rfl, rfl, ?_, ?_, ?_⟩
    · simp only [decodeRecordID, if_neg hnlt]
    · intro p hp h4
      simp only [if_pos h4, hp]
    · intro hp h4 h5
      simp only [if_pos h4, hp, if_neg (show ¬ 4 < (splitOnColon s).length by omega)]
    · intro h5
      simp only [if_pos h5]

/-- Witness for C6 at a concrete five-segment identity. -/
theorem decodeRecordID_segments_witness :
    3 ≤ (splitOnColon (S "example.com:www:MX:10:mail.example.com")).length ∧
    (∃ d, decodeRecordID (S "example.com:www:MX:10:mail.example.com") = some d ∧
      d.zone = (splitOnColon (S "example.com:www:MX:10:mail.example.com")).getD 0 [] ∧
      d.name = (splitOnColon (S "example.com:www:MX:10:mail.example.com")).getD 1 [] ∧
      d.typ = (splitOnColon (S "example.com:www:MX:10:mail.example.com")).getD 2 [] ∧
      (∀ p, parseInt64 ((splitOnColon (S "example.com:www:MX:10:mail.example.com")).getD 3 []) = some p →
        3 < (splitOnColon (S "example.com:www:MX:10:mail.example.com")).length →
        d.priority = p) ∧
      (parseInt64 ((splitOnColon (S "example.com:www:MX:10:mail.example.com")).getD 3 []) = none →
        3 < (splitOnColon (S "example.com:www:MX:10:mail.example.com")).length →
        (splitOnColon (S "example.com:www:MX:10:mail.example.com")).length ≤ 4 →
        d.dataV = (splitOnColon (S "example.com:www:MX:10:mail.example.com")).getD 3 []) ∧
      (4 < (splitOnColon (S "example.com:www:MX:10:mail.example.com")).length →
        d.dataV = (splitOnColon (S "example.com:www:MX:10:mail.example.com")).getD 4 [])) :=
  ⟨by decide, (decodeRecordID_segments (S "example.com:www:MX:10:mail.example.com")).2 (by decide)⟩

/-- Candidate record returned by the zone list query, restricted to the
`RData` fields that the matching loop in `Read` actually compares
(internal/provider/dns_record_resource.go, lines 558-609). -/
structure RemoteRecord where
  typ : List Char
  preference : Int
  exchange : List Char
  forwarder : List Char
  ipAddress : List Char
  cname : List Char
  text : List Char
  deriving DecidableEq

/-- Predicate deciding whether the matching loop in `Read` accepts a
candidate: the type must match, then the type-specific constraints decided
from the identity (priority, data) are applied; TXT compares the text raw and
with surrounding quotes trimmed from both sides, accepting either. -/
def matchesRecord (recordType : List Char) (priority : Int)
    (recordData : List Char) (rec : RemoteRecord) : Bool :=
  if rec.typ ≠ recordType then false
  else if recordType = S "MX" then
    if (0 < priority ∧ (priority < -2147483648 ∨ 2147483647 < priority ∨
          rec.preference ≠ priority)) ∨
        (recordData ≠ [] ∧ rec.exchange ≠ recordData) then false else true
  else if recordType = S "FWD" then
    if recordData ≠ [] ∧ rec.forwarder ≠ recordData then false else true
  else if recordType = S "A" ∨ recordType = S "AAAA" then
    if recordData ≠ [] ∧ rec.ipAddress ≠ recordData then false else true
  else if recordType = S "CNAME" then
    if recordData ≠ [] ∧ rec.cname ≠ recordData then false else true
  else if recordType = S "TXT" then
    if recordData ≠ [] ∧ (rec.text ≠ recordData ∧
        trimQuotes rec.text ≠ trimQuotes recordData) then false else true
  else true

/-- C9: with a non-empty data constraint, a TXT candidate is accepted exactly
when the raw texts are equal or the quote-trimmed texts are equal. -/
theorem txt_match_raw_or_trimmed (priority : Int) (recordData : List Char)
    (rec : RemoteRecord) (htyp : rec.typ = S "TXT") (hne : recordData ≠ []) :
    matchesRecord (S "TXT") priority recordData rec = true ↔
      (rec.text = recordData ∨ trimQuotes rec.text = trimQuotes recordData) := by
  have h1 : ¬ rec.typ ≠ S "TXT" := by simp [htyp]
  have hmx : ¬ (S "TXT" = S "MX") := by decide
  have hfwd : ¬ (S "TXT" = S "FWD") := by decide
  have ha : ¬ (S "TXT" = S "A" ∨ S "TXT" = S "AAAA") := by decide
  have hcn : ¬ (S "TXT" = S "CNAME") := by decide
  have htx : (S "TXT" = S "TXT") := rfl
  simp only [matchesRecord, if_neg h1, if_neg hmx, if_neg hfwd, if_neg ha,
    if_neg hcn, if_pos htx]
  by_cases hraw : rec.text = recordData
  · simp [hraw]
  · by_cases htrim : trimQuotes rec.text = trimQuotes recordData
    · simp [hraw, htrim]
    · simp [hraw, htrim, hne]

/-- Witness for C9: a TXT record stored as `v=spf1 -all` matches a remote
value returned with surrounding quotes. -/
theorem txt_match_raw_or_trimmed_witness :
    (S "v=spf1 -all" ≠ [] ∧
      (⟨S "TXT", 0, [], [], [], [], S "\"v=spf1 -all\""⟩ : RemoteRecord).typ = S "TXT") ∧
    matchesRecord (S "TXT") 0 (S "v=spf1 -all")
      ⟨S "TXT", 0, [], [], [], [], S "\"v=spf1 -all\""⟩ = true :=
  ⟨⟨by decide, rfl⟩,
    (txt_match_raw_or_trimmed 0 (S "v=spf1 -all")
      ⟨S "TXT", 0, [], [], [], [], S "\"v=spf1 -all\""⟩ rfl (by decide)).mpr
      (Or.inr (by decide))⟩

/-- Observable events of one `doRequest` execution, in order: a backoff wait
of `secs` seconds, the HTTP attempt number `attempt` (a `makeRequest` call),
or the `idx`-th re-authentication (`Login`) call. -/
inductive Ev where
  | backoff (secs : Nat)
  | httpCall (attempt : Nat)
  | loginCall (idx : Nat)
  deriving DecidableEq

/-- Result of `doRequest`: success, a surfaced error message, or the
impossible exhausted-with-no-error case (the loop body always records
`lastErr` before recursing). -/
inductive DoResult where
  | ok
  | err (msg : List Char)
  | errNil
  deriving DecidableEq

/-- Embedding of Go `strings.Contains(err.Error(), "invalid-token")` used by
the retry loop to detect the invalid-token condition. -/
def containsInvalidToken (msg : List Char) : Bool :=
  containsSub msg (S "invalid-token")

/-- Events emitted at the top of a loop iteration: the linear backoff wait of
`attempt` seconds for every iteration after the first. -/
def preEv (attempt : Nat) : List Ev :=
  if attempt = 0 then [] else [.backoff attempt]

/-- Embedding of the `for attempt := 0; attempt <= c.retries; attempt++` loop
of `doRequest` (internal/client/client.go, lines 143-186).  `fuel` counts the
remaining iterations (`retries + 1 - attempt`); `attemptResult i` is the
outcome of the i-th `makeRequest` call and `loginResult j` of the j-th
`Login` call (`none` = success).  Context cancellation never fires in this
model. -/
def goLoop (hasCreds : Bool) (attemptResult loginResult : Nat → Option (List Char)) :
    Nat → Nat → Nat → Option (List Char) → List Ev × DoResult
  | _, 0, _, lastErr =>
    ([], match lastErr with | some m => .err m | none => .errNil)
  | attempt, fuel + 1, logins, _lastErr =>
    let pre := preEv attempt
    match attemptResult attempt with
    | none => (pre ++ [.httpCall attempt], .ok)
    | some msg =>
      if containsInvalidToken msg && hasCreds then
        match loginResult logins with
        | some lmsg =>
          (pre ++ [.httpCall attempt, .loginCall logins],
            .err (S "authentication failed: " ++ lmsg))
        | none =>
          let rest := goLoop hasCreds attemptResult loginResult
            (attempt + 1) fuel (logins + 1) (some msg)
          (pre ++ [.httpCall attempt, .loginCall logins] ++ rest.1, rest.2)
      else
        let rest := goLoop hasCreds attemptResult loginResult
          (attempt + 1) fuel logins (some msg)
        (pre ++ [.httpCall attempt] ++ rest.1, rest.2)

/-- Embedding of `doRequest`: the loop runs for attempt = 0 .. retries, hence
`retries + 1` units of fuel. -/
def doRequest (hasCreds : Bool) (retries : Nat)
    (attemptResult loginResult : Nat → Option (List Char)) :
    List Ev × DoResult :=
  goLoop hasCreds attemptResult loginResult 0 (retries + 1) 0 none

/-- Number of HTTP attempts (`makeRequest` calls, login calls excluded) in an
event trace. -/
def countHttp (evs : List Ev) : Nat :=
  evs.countP (fun e => match e with | .httpCall _ => true | _ => false)

/-- Defaulting of the retry configuration in `NewClient`
(internal/client/client.go, lines 56-98): `RetryAttempts` of 0 becomes 3. -/
def newClientRetryAttempts (configured : Int) : Int :=
  if configured = 0 then 3 else configured

theorem countHttp_preEv (attempt : Nat) : countHttp (preEv attempt) = 0 := by
  unfold preEv countHttp
  split <;> simp

theorem countHttp_append (a b : List Ev) :
    countHttp (a ++ b) = countHttp a + countHttp b :=
  List.countP_append _ a b

theorem countHttp_http_single (a : Nat) : countHttp [.httpCall a] = 1 := by
  simp [countHttp]

theorem countHttp_http_login (a l : Nat) :
    countHttp [.httpCall a, .loginCall l] = 1 := by
  simp [countHttp]

theorem countHttp_goLoop_le (hasCreds : Bool)
    (ar lr : Nat → Option (List Char)) (fuel : Nat) :
    ∀ attempt logins lastE,
      countHttp (goLoop hasCreds ar lr attempt fuel logins lastE).1 ≤ fuel := by
  induction fuel with
  | zero => intro attempt logins lastE; simp [goLoop, countHttp]
  | succ f ih =>
    intro attempt logins lastE
    cases har : ar attempt with
    | none =>
      simp only [goLoop, har]
      rw [countHttp_append, countHttp_preEv, countHttp_http_single]
      omega
    | some msg =>
      by_cases hit : (containsInvalidToken msg && hasCreds) = true
      · cases hlr : lr logins with
        | some lmsg =>
          simp only [goLoop, har, hit, if_true, hlr]
          rw [countHttp_append, countHttp_preEv, countHttp_http_login]
          omega
        | none =>
          simp only [goLoop, har, hit, if_true, hlr]
          rw [countHttp_append, countHttp_append, countHttp_preEv,
            countHttp_http_login]
          have := ih (attempt + 1) (logins + 1) (some msg)
          omega
      · have hit' : (containsInvalidToken msg && hasCreds) = false := by
          revert hit; cases (containsInvalidToken msg && hasCreds) <;> simp
        simp only [goLoop, har, hit', Bool.false_eq_true, if_false]
        rw [countHttp_append, countHttp_append, countHttp_preEv,
          countHttp_http_single]
        have := ih (attempt + 1) logins (some msg)
        omega

/-- C1 (amended): a `doRequest` execution makes at most `retries + 1`
underlying HTTP calls (login calls excluded); with the `NewClient` default of
`RetryAttempts = 3` that bound is 4, not 3. -/
theorem doRequest_http_calls_le (hasCreds : Bool) (retries : Nat)
    (ar lr : Nat → Option (List Char)) :
    countHttp (doRequest hasCreds retries ar lr).1 ≤ retries + 1 :=
  countHttp_goLoop_le hasCreds ar lr (retries + 1) 0 0 none

/-- Counterexample to C1 as stated: with the default retry configuration
(`RetryAttempts = 0` defaulted to 3) and every attempt failing with a
transport error, `doRequest` makes 4 HTTP calls, exceeding the claimed bound
of 3. -/
theorem default_retry_budget_counterexample :
    (newClientRetryAttempts 0).toNat = 3 ∧
    countHttp (doRequest false (newClientRetryAttempts 0).toNat
      (fun _ => some (S "request failed: connection refused"))
      (fun _ => none)).1 = 4 := by
  constructor
  · decide
  · decide

/-- C2 (amended): when an attempt fails with the invalid-token condition and
credentials are configured, exactly one synchronous login happens before the
next attempt of the original call; if that login fails the whole operation
stops immediately with the wrapped authentication error and no further
attempts are made; if it succeeds, the next attempt still observes the normal
linear backoff (`continue` re-enters the loop top, which waits first). -/
theorem invalid_token_reauth_step
    (ar lr : Nat → Option (List Char)) (attempt fuel logins : Nat)
    (lastE : Option (List Char)) (m : List Char)
    (hm : ar attempt = some m) (hit : containsInvalidToken m = true) :
    (∀ lmsg, lr logins = some lmsg →
      goLoop true ar lr attempt (fuel + 1) logins lastE =
        (preEv attempt ++ [.httpCall attempt, .loginCall logins],
          .err (S "authentication failed: " ++ lmsg))) ∧
    (lr logins = none →
      goLoop true ar lr attempt (fuel + 1) logins lastE =
        (preEv attempt ++ [.httpCall attempt, .loginCall logins] ++
            (goLoop true ar lr (attempt + 1) fuel (logins + 1) (some m)).1,
          (goLoop true ar lr (attempt + 1) fuel (logins + 1) (some m)).2)) ∧
    (lr logins = none → 1 ≤ fuel →
      ∃ rest, (goLoop true ar lr (attempt + 1) fuel (logins + 1) (some m)).1 =
        .backoff (attempt + 1) :: .httpCall (attempt + 1) :: rest) := by
  refine ⟨?_, ?_, ?_⟩
  · intro lmsg hlr
    simp [goLoop, hm, hit, hlr]
  · intro hlr
    simp [goLoop, hm, hit, hlr]
  · intro hlr hfuel
    cases fuel with
    | zero => omega
    | succ f =>
      have hpre : preEv (attempt + 1) = [.backoff (attempt + 1)] := by
        simp [preEv]
      cases har : ar (attempt + 1) with
      | none =>
        refine ⟨[], ?_⟩
        simp [goLoop, har, hpre]
      | some msg₂ =>
        by_cases hit₂ : (containsInvalidToken msg₂ && true) = true
        · cases hlr₂ : lr (logins + 1) with
          | some lmsg₂ =>
            refine ⟨[.loginCall (logins + 1)], ?_⟩
            simp [goLoop, har, hit₂, hlr₂, hpre]
          | none =>
            refine ⟨.loginCall (logins + 1) ::
              (goLoop true ar lr (attempt + 2) f (logins + 2) (some msg₂)).1, ?_⟩
            simp [goLoop, har, hit₂, hlr₂, hpre]
        · have hit₂' : (containsInvalidToken msg₂ && true) = false := by
            revert hit₂; cases (containsInvalidToken msg₂ && true) <;> simp
          refine ⟨(goLoop true ar lr (attempt + 2) f (logins + 1) (some msg₂)).1, ?_⟩
          simp [goLoop, har, hit₂', hpre]

/-- Counterexample to C2 as stated: an invalid-token failure with working
credentials is followed by one login and then a backoff wait before the
retried attempt — the claim that the next attempt is made "without waiting
out the retry backoff" is false. -/
theorem invalid_token_backoff_counterexample :
    doRequest true 3
      (fun i => if i = 0 then
        some (S "invalid-token: session expired or invalid token") else none)
      (fun _ => none) =
      ([.httpCall 0, .loginCall 0, .backoff 1, .httpCall 1], .ok) := by
  decide

/-- Witness for the amended C2 at a concrete trace. -/
theorem invalid_token_reauth_step_witness :
    let m := S "invalid-token: session expired or invalid token"
    let ar : Nat → Option (List Char) := fun i => if i = 0 then some m else none
    let lr : Nat → Option (List Char) := fun _ => none
    (ar 0 = some m ∧ containsInvalidToken m = true ∧
      lr 0 = (none : Option (List Char)) ∧ 1 ≤ 3) ∧
    (goLoop true ar lr 0 (3 + 1) 0 none =
      (preEv 0 ++ [.httpCall 0, .loginCall 0] ++
          (goLoop true ar lr 1 3 1 (some m)).1,
        (goLoop true ar lr 1 3 1 (some m)).2)) ∧
    (∃ rest, (goLoop true ar lr 1 3 1 (some m)).1 =
      .backoff 1 :: .httpCall 1 :: rest) := by
  intro m ar lr
  have h := invalid_token_reauth_step ar lr 0 3 0 none m (by decide) (by decide)
  exact ⟨⟨by decide, by decide, rfl, by decide⟩, h.2.1 rfl, h.2.2 rfl (by decide)⟩

theorem goLoop_const_err (hc : Bool) (ar lr : Nat → Option (List Char))
    (msg : List Char) (hmsg : ∀ i, ar i = some msg)
    (hni : containsInvalidToken msg = false) (fuel : Nat) :
    ∀ attempt logins lastE, 1 ≤ fuel →
      (goLoop hc ar lr attempt fuel logins lastE).2 = .err msg ∧
      countHttp (goLoop hc ar lr attempt fuel logins lastE).1 = fuel := by
  induction fuel with
  | zero => intro _ _ _ h; omega
  | succ f ih =>
    intro attempt logins lastE _
    have hit : (containsInvalidToken msg && hc) = false := by
      simp [hni]
    have hstep : goLoop hc ar lr attempt (f + 1) logins lastE =
        (preEv attempt ++ [.httpCall attempt] ++
            (goLoop hc ar lr (attempt + 1) f logins (some msg)).1,
          (goLoop hc ar lr (attempt + 1) f logins (some msg)).2) := by
      conv_lhs => rw [goLoop]
      simp [hmsg attempt, hit]
    have hstep1 : (goLoop hc ar lr attempt (f + 1) logins lastE).1 =
        preEv attempt ++ [.httpCall attempt] ++
          (goLoop hc ar lr (attempt + 1) f logins (some msg)).1 := by
      rw [hstep]
    have hstep2 : (goLoop hc ar lr attempt (f + 1) logins lastE).2 =
        (goLoop hc ar lr (attempt + 1) f logins (some msg)).2 := by
      rw [hstep]
    cases f with
    | zero =>
      constructor
      · rw [hstep2]; simp [goLoop]
      · rw [hstep1, countHttp_append, countHttp_append, countHttp_preEv,
          countHttp_http_single]
        simp [goLoop, countHttp]
    | succ f' =>
      have hrec := ih (attempt + 1) logins (some msg) (by omega)
      constructor
      · rw [hstep2]; exact hrec.1
      · rw [hstep1, countHttp_append, countHttp_append, countHttp_preEv,
          countHttp_http_single, hrec.2]
        omega

/-- C3 (amended): a DomainError (`"API error: ..."`) failure is retried like
any other non-invalid-token failure; when every attempt fails that way the
whole budget of `retries + 1` HTTP calls is used and the last DomainError is
then surfaced with its message text intact, not after the first failure. -/
theorem domainError_is_retried (hc : Bool) (retries : Nat)
    (ar lr : Nat → Option (List Char)) (remoteMsg : List Char)
    (hmsg : ∀ i, ar i = some (S "API error: " ++ remoteMsg))
    (hni : containsInvalidToken (S "API error: " ++ remoteMsg) = false) :
    (doRequest hc retries ar lr).2 = .err (S "API error: " ++ remoteMsg) ∧
    countHttp (doRequest hc retries ar lr).1 = retries + 1 :=
  goLoop_const_err hc ar lr (S "API error: " ++ remoteMsg) hmsg hni
    (retries + 1) 0 0 none (by omega)

/-- Counterexample to C3 as stated: a first-attempt DomainError is followed
by a backoff and a second HTTP attempt (which here succeeds), so the error is
neither surfaced immediately nor exempt from retry. -/
theorem domain_error_retry_counterexample :
    doRequest true 3
      (fun i => if i = 0 then some (S "API error: zone already exists") else none)
      (fun _ => none) =
      ([.httpCall 0, .backoff 1, .httpCall 1], .ok) := by
  decide

/-- Witness for the amended C3 at a concrete run with one retry. -/
theorem domainError_is_retried_witness :
    let msg := S "API error: " ++ S "zone already exists"
    let ar : Nat → Option (List Char) := fun _ => some msg
    let lr : Nat → Option (List Char) := fun _ => none
    ((∀ i, ar i = some msg) ∧ containsInvalidToken msg = false) ∧
    (doRequest false 1 ar lr).2 = .err msg ∧
    countHttp (doRequest false 1 ar lr).1 = 2 := by
  intro msg ar lr
  exact ⟨⟨fun i => rfl, by decide⟩,
    domainError_is_retried false 1 ar lr (S "zone already exists")
      (fun i => rfl) (by decide)⟩

/-- Terraform plan/state attributes of one DNS record as read by
`buildRecordOptions` (internal/provider/dns_record_resource.go, lines
985-1139).  `Option` models a `types.*` attribute that the code guards with
`IsNull() || IsUnknown()`; `dataV` is the `ValueString()` of the required
data attribute. -/
structure RecordModel where
  typ : List Char
  dataV : List Char
  priority : Option Int
  weight : Option Int
  port : Option Int
  comments : Option (List Char)
  protocol : Option (List Char)
  forwarder : Option (List Char)
  forwarderPriority : Option Int
  dnssecValidation : Option Bool
  proxyType : Option (List Char)
  proxyAddress : Option (List Char)
  proxyPort : Option Int
  proxyUsername : Option (List Char)
  proxyPassword : Option (List Char)
  deriving DecidableEq

/-- One conditional map insertion `if !v.IsNull() && !v.IsUnknown() {
options[key] = render(v) }`. -/
def optPair {α : Type} (key : List Char) (v : Option α)
    (render : α → List Char) : List (List Char × List Char) :=
  match v with
  | some x => [(key, render x)]
  | none => []

/-- Comments are attached only on `create` and `new` operations
(internal/provider/dns_record_resource.go, lines 1133-1136). -/
def commentsPart (opType : List Char) (cm : Option (List Char)) :
    List (List Char × List Char) :=
  match cm with
  | some c =>
    if opType = S "create" ∨ opType = S "new" then [(S "comments", c)] else []
  | none => []

/-- Embedding of `buildRecordOptions`: the per-type parameter table, with the
`new`-prefixed names used only when `opType = "new"` and only for the
parameters the Go switch actually renames. -/
def buildRecordOptions (r : RecordModel) (opType : List Char) :
    List (List Char × List Char) :=
  (if r.typ = S "A" ∨ r.typ = S "AAAA" then
    [((if opType = S "new" then S "newIpAddress" else S "ipAddress"), r.dataV)]
  else if r.typ = S "CNAME" then
    [((if opType = S "new" then S "newCname" else S "cname"), r.dataV)]
  else if r.typ = S "MX" then
    ((if opType = S "new" then S "newExchange" else S "exchange"), r.dataV) ::
      optPair (if opType = S "new" then S "newPreference" else S "preference")
        r.priority intToChars
  else if r.typ = S "TXT" then
    [((if opType = S "new" then S "newText" else S "text"), trimQuotes r.dataV)]
  else if r.typ = S "PTR" then
    [((if opType = S "new" then S "newPtrName" else S "ptrName"), r.dataV)]
  else if r.typ = S "NS" then
    [((if opType = S "new" then S "newNameServer" else S "nameServer"), r.dataV)]
  else if r.typ = S "SRV" then
    ((if opType = S "new" then S "newTarget" else S "target"), r.dataV) ::
      (optPair (if opType = S "new" then S "newPriority" else S "priority")
          r.priority intToChars ++
        optPair (if opType = S "new" then S "newWeight" else S "weight")
          r.weight intToChars ++
        optPair (if opType = S "new" then S "newPort" else S "port")
          r.port intToChars)
  else if r.typ = S "FWD" then
    ((if opType = S "new" then S "newProtocol" else S "protocol"),
        (match r.protocol with | some pr => pr | none => S "Udp")) ::
      ((if opType = S "new" then S "newForwarder" else S "forwarder"),
        (match r.forwarder with | some f => f | none => r.dataV)) ::
      (optPair (S "forwarderPriority") r.forwarderPriority intToChars ++
        optPair (S "dnssecValidation") r.dnssecValidation boolToChars ++
        optPair (S "proxyType") r.proxyType id ++
        optPair (S "proxyAddress") r.proxyAddress id ++
        optPair (S "proxyPort") r.proxyPort intToChars ++
        optPair (S "proxyUsername") r.proxyUsername id ++
        optPair (S "proxyPassword") r.proxyPassword id)
  else []) ++ commentsPart opType r.comments

/-- Parameter names of an options map. -/
def keys (m : List (List Char × List Char)) : List (List Char) :=
  m.map Prod.fst

/-- Bare parameter names that the Go switch never renames in `new` mode. -/
def fwdBareKeys : List (List Char) :=
  [S "forwarderPriority", S "dnssecValidation", S "proxyType",
    S "proxyAddress", S "proxyPort", S "proxyUsername", S "proxyPassword",
    S "comments"]

theorem keys_optPair {α : Type} {key : List Char} {v : Option α}
    {render : α → List Char} {k : List Char}
    (h : k ∈ keys (optPair key v render)) : k = key := by
  cases v with
  | none => simp [optPair, keys] at h
  | some x => simpa [optPair, keys] using h

theorem keys_commentsPart {opType : List Char} {cm : Option (List Char)}
    {k : List Char} (h : k ∈ keys (commentsPart opType cm)) :
    k = S "comments" := by
  cases cm with
  | none => simp [commentsPart, keys] at h
  | some c =>
    by_cases ho : opType = S "create" ∨ opType = S "new"
    · simpa [commentsPart, keys, ho] using h
    · simp [commentsPart, keys, ho] at h

theorem keys_append (l₁ l₂ : List (List Char × List Char)) :
    keys (l₁ ++ l₂) = keys l₁ ++ keys l₂ :=
  List.map_append _ l₁ l₂

theorem keys_cons (a : List Char × List Char)
    (l : List (List Char × List Char)) : keys (a :: l) = a.1 :: keys l := rfl

theorem keys_nil : keys [] = [] := rfl

theorem commentsPart_off (opType : List Char) (cm : Option (List Char))
    (h1 : opType ≠ S "create") (h2 : opType ≠ S "new") :
    commentsPart opType cm = [] := by
  cases cm with
  | none => rfl
  | some c => simp [commentsPart, h1, h2]

/-- C8 (amended): in `new` mode every parameter name either carries the `new`
prefix or is one of the names the Go switch leaves bare (FWD's
`forwarderPriority`, `dnssecValidation` and `proxy*` parameters, plus
`comments`); and for an MX record the key sets of the `new` and `current`
option maps are still disjoint. -/
theorem build_new_prefix_and_mx_disjoint (r : RecordModel) :
    (∀ k ∈ keys (buildRecordOptions r (S "new")),
      (S "new").isPrefixOf k = true ∨ k ∈ fwdBareKeys) ∧
    (r.typ = S "MX" →
      ∀ k ∈ keys (buildRecordOptions r (S "new")),
        k ∉ keys (buildRecordOptions r (S "current"))) := by
  have hTrue : (S "new" = S "new") = True := by simp
  constructor
  · intro k hk
    unfold buildRecordOptions at hk
    simp only [hTrue, if_true] at hk
    rw [keys_append] at hk
    rcases List.mem_append.mp hk with hk | hk
    · split_ifs at hk with h1 h2 h3 h4 h5 h6 h7 h8
      · rw [keys_cons] at hk
        rcases List.mem_cons.mp hk with hk | hk
        · subst hk
          exact Or.inl (by decide : (S "new").isPrefixOf (S "newIpAddress") = true)
        · rw [keys_nil] at hk; exact absurd hk (List.not_mem_nil k)
      · rw [keys_cons] at hk
        rcases List.mem_cons.mp hk with hk | hk
        · subst hk
          exact Or.inl (by decide : (S "new").isPrefixOf (S "newCname") = true)
        · rw [keys_nil] at hk; exact absurd hk (List.not_mem_nil k)
      · rw [keys_cons] at hk
        rcases List.mem_cons.mp hk with hk | hk
        · subst hk
          exact Or.inl (by decide : (S "new").isPrefixOf (S "newExchange") = true)
        · have hkey := keys_optPair hk
          subst hkey
          exact Or.inl (by decide : (S "new").isPrefixOf (S "newPreference") = true)
      · rw [keys_cons] at hk
        rcases List.mem_cons.mp hk with hk | hk
        · subst hk
          exact Or.inl (by decide : (S "new").isPrefixOf (S "newText") = true)
        · rw [keys_nil] at hk; exact absurd hk (List.not_mem_nil k)
      · rw [keys_cons] at hk
        rcases List.mem_cons.mp hk with hk | hk
        · subst hk
          exact Or.inl (by decide : (S "new").isPrefixOf (S "newPtrName") = true)
        · rw [keys_nil] at hk; exact absurd hk (List.not_mem_nil k)
      · rw [keys_cons] at hk
        rcases List.mem_cons.mp hk with hk | hk
        · subst hk
          exact Or.inl (by decide : (S "new").isPrefixOf (S "newNameServer") = true)
        · rw [keys_nil] at hk; exact absurd hk (List.not_mem_nil k)
      · rw [keys_cons] at hk
        rcases List.mem_cons.mp hk with hk | hk
        · subst hk
          exact Or.inl (by decide : (S "new").isPrefixOf (S "newTarget") = true)
        · simp only [keys_append, List.mem_append] at hk
          rcases hk with (hk | hk) | hk
          · have hkey := keys_optPair hk
            subst hkey
            exact Or.inl (by decide : (S "new").isPrefixOf (S "newPriority") = true)
          · have hkey := keys_optPair hk
            subst hkey
            exact Or.inl (by decide : (S "new").isPrefixOf (S "newWeight") = true)
          · have hkey := keys_optPair hk
            subst hkey
            exact Or.inl (by decide : (S "new").isPrefixOf (S "newPort") = true)
      · rw [keys_cons] at hk
        rcases List.mem_cons.mp hk with hk | hk
        · subst hk
          exact Or.inl (by decide : (S "new").isPrefixOf (S "newProtocol") = true)
        · rw [keys_cons] at hk
          rcases List.mem_cons.mp hk with hk | hk
          · subst hk
            exact Or.inl (by decide : (S "new").isPrefixOf (S "newForwarder") = true)
          · simp only [keys_append, List.mem_append] at hk
            rcases hk with ((((((hk | hk) | hk) | hk) | hk) | hk) | hk)
            · have hkey := keys_optPair hk
              subst hkey
              exact Or.inr (by decide : S "forwarderPriority" ∈ fwdBareKeys)
            · have hkey := keys_optPair hk
              subst hkey
              exact Or.inr (by decide : S "dnssecValidation" ∈ fwdBareKeys)
            · have hkey := keys_optPair hk
              subst hkey
              exact Or.inr (by decide : S "proxyType" ∈ fwdBareKeys)
            · have hkey := keys_optPair hk
              subst hkey
              exact Or.inr (by decide : S "proxyAddress" ∈ fwdBareKeys)
            · have hkey := keys_optPair hk
              subst hkey
              exact Or.inr (by decide : S "proxyPort" ∈ fwdBareKeys)
            · have hkey := keys_optPair hk
              subst hkey
              exact Or.inr (by decide : S "proxyUsername" ∈ fwdBareKeys)
            · have hkey := keys_optPair hk
              subst hkey
              exact Or.inr (by decide : S "proxyPassword" ∈ fwdBareKeys)
      · rw [keys_nil] at hk; exact absurd hk (List.not_mem_nil k)
    · have hkey := keys_commentsPart hk
      subst hkey
      exact Or.inr (by decide : S "comments" ∈ fwdBareKeys)
  · intro hmx k hk hk'
    have hnew : k = S "newExchange" ∨ k = S "newPreference" ∨
        k = S "comments" := by
      unfold buildRecordOptions at hk
      rw [hmx] at hk
      rw [if_neg (by decide : ¬(S "MX" = S "A" ∨ S "MX" = S "AAAA")),
        if_neg (by decide : ¬(S "MX" = S "CNAME")),
        if_pos (rfl : S "MX" = S "MX"),
        if_pos (rfl : S "new" = S "new"),
        if_pos (rfl : S "new" = S "new")] at hk
      rw [keys_append] at hk
      rcases List.mem_append.mp hk with hk | hk
      · rw [keys_cons] at hk
        rcases List.mem_cons.mp hk with hk | hk
        · exact Or.inl hk
        · exact Or.inr (Or.inl (keys_optPair hk))
      · exact Or.inr (Or.inr (keys_commentsPart hk))
    have hcur : k = S "exchange" ∨ k = S "preference" := by
      unfold buildRecordOptions at hk'
      rw [hmx] at hk'
      rw [commentsPart_off (S "current") r.comments (by decide) (by decide),
        List.append_nil] at hk'
      rw [if_neg (by decide : ¬(S "MX" = S "A" ∨ S "MX" = S "AAAA")),
        if_neg (by decide : ¬(S "MX" = S "CNAME")),
        if_pos (rfl : S "MX" = S "MX"),
        if_neg (by decide : ¬(S "current" = S "new")),
        if_neg (by decide : ¬(S "current" = S "new"))] at hk'
      rw [keys_cons] at hk'
      rcases List.mem_cons.mp hk' with hk' | hk'
      · exact Or.inl hk'
      · exact Or.inr (keys_optPair hk')
    rcases hnew with rfl | rfl | rfl <;> rcases hcur with h | h <;>
      exact absurd h (by decide)

/-- Concrete FWD record used to refute the universal `new`-prefix claim. -/
def fwdSampleRecord : RecordModel :=
  ⟨S "FWD", S "10.0.0.1", none, none, none, none, none, some (S "10.0.0.1"),
    none, some true, none, none, none, none, none⟩

/-- Counterexample to C8 as stated: for a FWD record with DNSSEC validation
set, the `new` option map carries the bare key `dnssecValidation`, not a
`new`-prefixed counterpart. -/
theorem build_new_bare_key_counterexample :
    S "dnssecValidation" ∈ keys (buildRecordOptions fwdSampleRecord (S "new")) ∧
    S "newDnssecValidation" ∉
      keys (buildRecordOptions fwdSampleRecord (S "new")) := by
  constructor
  · decide
  · decide

/-- Concrete MX record used as the witness for the amended C8. -/
def mxSampleRecord : RecordModel :=
  ⟨S "MX", S "mail.example.com", some 10, none, none, none, none, none, none,
    none, none, none, none, none, none⟩

/-- Witness for the amended C8: the MX disjointness conjunct applied at a
concrete MX record and key. -/
theorem build_new_prefix_and_mx_disjoint_witness :
    (mxSampleRecord.typ = S "MX" ∧
      S "newExchange" ∈ keys (buildRecordOptions mxSampleRecord (S "new"))) ∧
    S "newExchange" ∉ keys (buildRecordOptions mxSampleRecord (S "current")) :=
  ⟨⟨rfl, by decide⟩,
    (build_new_prefix_and_mx_disjoint mxSampleRecord).2 rfl (S "newExchange")
      (by decide)⟩
